import Mathlib

/-!
Verification of the head-sensitivity selection and attention-aggregation
pipeline of `analyze_a2a.py` (allosteric head analysis of the adenosine A2A
receptor).

The script's computational steps are embedded shallowly:
* rank-2 tensors become shape-carrying entry functions (`Tensor2`);
* Python / torch / numpy operations that can raise (`IndexError`, a dict
  `KeyError`, `np.percentile` on an empty array) return `Option`, with `none`
  standing for the raised exception aborting the run;
* real (float) arithmetic is idealised over `ℚ`;
* the scipy call `ttest_1samp(population, popmean, alternative='less')` is an
  external library computation and is taken as a function parameter
  `(population, popmean) ↦ p-value` where a claim only depends on how its
  result is used.
-/

namespace A2A

/-- A rank-2 tensor, e.g. `impact_scores_tensor` or `snr_values_tensor`
(after the script's `assert ...ndim == 2` both are rank 2). -/
structure Tensor2 where
  nrows : Nat
  ncols : Nat
  entry : Nat → Nat → ℚ

/-- `t[i][j]` with bounds checking: `none` models the `IndexError` torch
raises when an index is out of range for a dimension. -/
def index2 (t : Tensor2) (i j : Nat) : Option ℚ :=
  if i < t.nrows ∧ j < t.ncols then some (t.entry i j) else none

/-- Row-major enumeration of (layer, head) pairs, mirroring
`for layer in range(num_layers): for head in range(num_heads)`. -/
def rowMajor (L H : Nat) : List (Nat × Nat) :=
  (List.range L).flatMap (fun l => (List.range H).map (fun h => (l, h)))

/-- Run a fallible computation over a list, aborting at the first failure
(Python execution order: the first raised exception aborts the run). -/
def traverseOption {α β : Type*} (f : α → Option β) : List α → Option (List β)
  | [] => some []
  | a :: as =>
    match f a with
    | none => none
    | some b => (traverseOption f as).map (fun bs => b :: bs)

/-- One row of the script's `head_stats` list: `(layer, head, impact, snr)`. -/
structure HeadStat where
  layer : Nat
  head : Nat
  impact : ℚ
  snr : ℚ
deriving DecidableEq

/-- The `head_stats` loop: the iteration space is the shape of the *impact*
tensor (`num_layers, num_heads = impact_scores_tensor.shape`), and each
access `snr_values_tensor[layer][head]` is bounds-checked — the script never
compares the two shapes beyond asserting that both tensors have rank 2. -/
def head_stats (impact snr : Tensor2) : Option (List HeadStat) :=
  traverseOption
    (fun p =>
      match index2 impact p.1 p.2, index2 snr p.1 p.2 with
      | some imp, some s => some ⟨p.1, p.2, imp, s⟩
      | _, _ => none)
    (rowMajor impact.nrows impact.ncols)

/-- One row of the script's `t_stats` list:
`(layer, head, impact, snr, p_val)`. -/
structure TStat where
  layer : Nat
  head : Nat
  impact : ℚ
  snr : ℚ
  p_val : ℚ
deriving DecidableEq

/-- The `t_stats` loop: for each head, a one-sample one-sided t-test of the
full impact population (`impacts`, including the head under test) against
that head's own impact as `popmean`.  The scipy p-value computation is the
parameter `ttest`. -/
def t_stats (ttest : List ℚ → ℚ → ℚ) (hs : List HeadStat) : List TStat :=
  let impacts := hs.map (fun s => s.impact)
  hs.map (fun s => ⟨s.layer, s.head, s.impact, s.snr, ttest impacts s.impact⟩)

/-- The `sensitive_heads` comprehension: dual-threshold selection
`p_val < 0.01 and snr > 2.0`, keeping input order. -/
def sensitive_heads (ts : List TStat) : List (Nat × Nat) :=
  (ts.filter (fun s => decide (s.p_val < 1 / 100 ∧ 2 < s.snr))).map
    (fun s => (s.layer, s.head))

/-- The selection stage of `main`, from the three tensors unpacked from
`analyzer.analyze_protein`'s result (`impacts`, `snrs`, `p_values`) to the
sensitive-head list.  `p_values` is unpacked by `main` but the selection
pipeline never reads it. -/
def run_selection (ttest : List ℚ → ℚ → ℚ)
    (impacts snrs p_values : Tensor2) : Option (List (Nat × Nat)) :=
  (head_stats impacts snrs).map (fun hs => sensitive_heads (t_stats ttest hs))

/-! ### Residue-name lookup (`allosteric_res_3l`) -/

/-- Python sequence indexing `s[i]`: a negative index counts from the end of
the sequence; `none` models the `IndexError` raised when the index is out of
range on both sides. -/
def pyIndex (s : List Char) (i : Int) : Option Char :=
  if 0 ≤ i then s.get? i.toNat
  else if 0 ≤ i + s.length then s.get? (i + s.length).toNat
  else none

/-- The fixed `Bio.Data.IUPACData.protein_letters_1to3` table (one-letter to
three-letter amino-acid codes); `none` models a dict `KeyError`. -/
def protein_letters_1to3 : Char → Option String
  | 'A' => some "Ala" | 'C' => some "Cys" | 'D' => some "Asp" | 'E' => some "Glu"
  | 'F' => some "Phe" | 'G' => some "Gly" | 'H' => some "His" | 'I' => some "Ile"
  | 'K' => some "Lys" | 'L' => some "Leu" | 'M' => some "Met" | 'N' => some "Asn"
  | 'P' => some "Pro" | 'Q' => some "Gln" | 'R' => some "Arg" | 'S' => some "Ser"
  | 'T' => some "Thr" | 'V' => some "Val" | 'W' => some "Trp" | 'Y' => some "Tyr"
  | _ => none

/-- One step of the `allosteric_res_3l` loop:
`one_to_three[f"{sequence[i-1]}"]`. -/
def residue_3l (seq : List Char) (site : Int) : Option String :=
  match pyIndex seq (site - 1) with
  | none => none
  | some c => protein_letters_1to3 c

/-- The `allosteric_res_3l` loop over all requested sites. -/
def allosteric_res_3l (seq : List Char) (sites : List Int) :
    Option (List String) :=
  traverseOption (residue_3l seq) sites

/-- The adenosine A2A receptor (2YDO) sequence hard-coded in the script. -/
def a2a_sequence : List Char :=
  ("MPIMGSSVYITVELAIAVLAILGNVLVCWAVWLNSNLQNVTNYFVVSAAAADILVGVLAIPFAIAISTGFCAACHGCLFIACFVLVLTASSIFSLLAIAIDRYIAIRIPLRYNGLVTGTRAKGIIAICWVLSFAIGLTPMLGWNNCGQPKEGKAHSQGCGEGQVACLFEDVVPMNYMVYFNFFACVLVPLLLMLGVYLRIFLAARRQLKQMESQPLPGERARSTLQKEVHAAKSLAIIVGLFALCWLPLHIINCFTFFCPDCSHAPLWLMYLAIVLSHTNSVVNPFIYAYRIREFRQTFRKIIRSHVLRQQEPFKAAAAENLYFQ").data

/-! ### Percentile reporter -/

/-- `np.percentile(values, q)` with numpy's default linear-interpolation
method: sort ascending, take the virtual index `(n-1)·q/100`, and
interpolate linearly between the two adjacent order statistics.  `none`
models the `IndexError` numpy raises on an empty array. -/
def np_percentile_linear (vals : List ℚ) (q : ℚ) : Option ℚ :=
  if vals = [] then none
  else
    let s := List.insertionSort (· ≤ ·) vals
    let n := s.length
    let pos : ℚ := q / 100 * ((n : ℚ) - 1)
    let k : Nat := (⌊pos⌋).toNat
    let lo := s.getD k 0
    let hi := s.getD (min (k + 1) (n - 1)) 0
    some (lo + (pos - (k : ℚ)) * (hi - lo))

/-- Python dict access `accumulated_attention[i]` on the association-list
embedding of the mapping; `none` models a `KeyError`. -/
def dictGet (acc : List (Nat × ℚ)) (p : Nat) : Option ℚ :=
  match acc with
  | [] => none
  | (k, v) :: rest => if k = p then some v else dictGet rest p

/-- The CSV-row loop of the reporter: for each position (already sorted
ascending), look its value up in the mapping and, when it strictly exceeds
the threshold, emit `(sequence[i-1], i, value)`.  `none` models an exception
aborting the run (an impossible missing key, or an out-of-range residue
index). -/
def rowsFor (seq : List Char) (acc : List (Nat × ℚ)) (pct : ℚ) :
    List Nat → Option (List (Char × Nat × ℚ))
  | [] => some []
  | i :: is =>
    match dictGet acc i with
    | none => none
    | some v =>
      if pct < v then
        match pyIndex seq ((i : Int) - 1) with
        | none => none
        | some c => (rowsFor seq acc pct is).map (fun rs => (c, i, v) :: rs)
      else rowsFor seq acc pct is

/-- The percentile-report stage: the 95th percentile of all mapping values,
then one data row per position in `sorted(accumulated_attention.keys())`
order whose value strictly exceeds the threshold.  The mapping
`accumulated_attention` is embedded as an association list with distinct
keys (a Python dict). -/
def percentileReport (seq : List Char) (acc : List (Nat × ℚ)) :
    Option (List (Char × Nat × ℚ)) :=
  match np_percentile_linear (acc.map Prod.snd) 95 with
  | none => none
  | some pct =>
    rowsFor seq acc pct (List.insertionSort (· ≤ ·) (acc.map Prod.fst))

/-! ### Result persisting and the mean attention map -/

/-- A 2-D attention map (`attention_maps[0, l, h]`, a `seq_len × seq_len`
slice). -/
abbrev Mat := List (List ℚ)

/-- Element-wise sum of two maps (`torch` broadcasting is not needed: all
stacked maps share one shape). -/
def matAdd (a b : Mat) : Mat := List.zipWith (List.zipWith (· + ·)) a b

/-- Multiply every entry of a map by a scalar. -/
def matScale (c : ℚ) (a : Mat) : Mat := a.map (List.map (fun x => c * x))

/-- `torch.mean(attention_stack, dim=0)`: the element-wise arithmetic mean
along the stacking axis. -/
def matMean (stack : List Mat) : Mat :=
  match stack with
  | [] => []
  | m :: ms => matScale (1 / ((ms.length + 1 : Nat) : ℚ)) (ms.foldl matAdd m)

/-- The `head_info` dictionary saved to `sensitive_heads.pt`. -/
structure HeadInfo where
  sensitive_heads : List (Nat × Nat)
  impact_scores : List (String × ℚ)
  snr_values : List (String × ℚ)
deriving DecidableEq

/-- Everything the tail of `main` produces from the sensitive-head list:
the always-written `head_info` record, the optional stacked attention
tensor (`sensitive_attention_maps.pt`), and the optional mean attention
map. -/
structure Artifacts where
  head_info : HeadInfo
  sensitive_attention_maps : Option (List Mat)
  mean_attention_map : Option Mat
deriving DecidableEq

/-- The dictionary key `f"{l}_{h}"`. -/
def headKey (l h : Nat) : String := toString l ++ "_" ++ toString h

/-- The artifact-producing tail of `main`: the mean attention map and the
stacked attention tensor are produced only under `if sensitive_heads:`,
while `head_info` is built and saved unconditionally.  `attn l h` stands
for the slice `attention_maps[0, l, h]`. -/
def persist_results (impact snr : Tensor2) (attn : Nat → Nat → Mat)
    (sh : List (Nat × Nat)) : Artifacts :=
  let mean_map : Option Mat :=
    if sh.isEmpty then none
    else some (matMean (sh.map (fun p => attn p.1 p.2)))
  let info : HeadInfo :=
    ⟨sh,
     sh.map (fun p => (headKey p.1 p.2, impact.entry p.1 p.2)),
     sh.map (fun p => (headKey p.1 p.2, snr.entry p.1 p.2))⟩
  let tensor : Option (List Mat) :=
    if sh.isEmpty then none
    else some (sh.map (fun p => attn p.1 p.2))
  ⟨info, tensor, mean_map⟩

/-! ### Basic lemmas about the list plumbing -/

theorem traverseOption_eq_map {α β : Type*} (f : α → Option β) (g : α → β) :
    ∀ l : List α, (∀ a ∈ l, f a = some (g a)) →
      traverseOption f l = some (l.map g) := by
  intro l
  induction l with
  | nil => intro _; rfl
  | cons a as ih =>
    intro h
    have ha : f a = some (g a) := h a (by simp)
    have has : traverseOption f as = some (as.map g) :=
      ih (fun x hx => h x (by simp [hx]))
    simp [traverseOption, ha, has]

theorem traverseOption_eq_none {α β : Type*} (f : α → Option β)
    (l : List α) (a : α) (ha : a ∈ l) (hfa : f a = none) :
    traverseOption f l = none := by
  induction l with
  | nil => cases ha
  | cons b bs ih =>
    rcases List.mem_cons.mp ha with h | h
    · subst h; simp [traverseOption, hfa]
    · cases hb : f b with
      | none => simp [traverseOption, hb]
      | some c => simp [traverseOption, hb, ih h]

theorem mem_rowMajor {L H : Nat} {p : Nat × Nat} :
    p ∈ rowMajor L H ↔ p.1 < L ∧ p.2 < H := by
  cases p with
  | mk l h => simp [rowMajor]

theorem length_rowMajor (L H : Nat) : (rowMajor L H).length = L * H := by
  simp only [rowMajor, List.length_flatMap, Function.comp_def, List.length_map,
    List.length_range, List.map_const', List.sum_replicate, smul_eq_mul]

theorem nodup_rowMajor (L H : Nat) : (rowMajor L H).Nodup := by
  rw [rowMajor, List.nodup_flatMap]
  constructor
  · intro l _
    exact (List.nodup_range H).map (fun a b hab => congrArg Prod.snd hab)
  · have h := List.nodup_range L
    refine h.imp ?_
    intro a b hab
    intro p hpa hpb
    simp only [List.mem_map, List.mem_range] at hpa hpb
    obtain ⟨x, _, hx⟩ := hpa
    obtain ⟨y, _, hy⟩ := hpb
    exact hab (by rw [← hx] at hy; exact (congrArg Prod.fst hy).symm)

/-- Evaluation of `head_stats` when every SNR access is in range: one record
per impact-grid cell, in row-major order. -/
theorem head_stats_eval (impact snr : Tensor2)
    (hr : impact.nrows ≤ snr.nrows) (hc : impact.ncols ≤ snr.ncols) :
    head_stats impact snr =
      some ((rowMajor impact.nrows impact.ncols).map
        (fun p => ⟨p.1, p.2, impact.entry p.1 p.2, snr.entry p.1 p.2⟩)) := by
  apply traverseOption_eq_map
  intro p hp
  have hb := mem_rowMajor.mp hp
  have h1 : index2 impact p.1 p.2 = some (impact.entry p.1 p.2) := by
    simp [index2, hb.1, hb.2]
  have h2 : index2 snr p.1 p.2 = some (snr.entry p.1 p.2) := by
    simp [index2]
    omega
  simp [h1, h2]

/-! ### Claim theorems: head statistics and selection -/

/-- C1: for every head-statistics list, the sensitive-head set produced by
the selector is exactly the set of (layer, head) pairs whose significance
value is strictly less than 0.01 and whose SNR is strictly greater than 2.0
(a head with SNR exactly 2.0 is excluded by strictness), and the selected
pairs appear in the same row-major order as the input statistics (the
selection is a sublist of the input's (layer, head) projection). -/
theorem sensitive_heads_spec (ts : List TStat) (p : Nat × Nat) :
    (p ∈ sensitive_heads ts ↔
      ∃ s ∈ ts, (s.layer, s.head) = p ∧ s.p_val < 1 / 100 ∧ 2 < s.snr)
    ∧ (sensitive_heads ts).Sublist (ts.map (fun s => (s.layer, s.head))) := by
  constructor
  · simp only [sensitive_heads, List.mem_map, List.mem_filter,
      decide_eq_true_eq]
    constructor
    · rintro ⟨s, ⟨hs, hcond⟩, hp⟩
      exact ⟨s, hs, hp, hcond⟩
    · rintro ⟨s, hs, hp, hcond⟩
      exact ⟨s, ⟨hs, hcond⟩, hp⟩
  · exact (List.filter_sublist ts).map _

/-- C4 counterexample: a 1×1 impact grid paired with a 2×2 SNR grid — the
shapes are not identical, yet the head-statistics computation succeeds
without any error (the script never compares the two shapes). -/
theorem head_stats_shape_mismatch_counterexample :
    ((Tensor2.mk 1 1 fun _ _ => 5).nrows, (Tensor2.mk 1 1 fun _ _ => 5).ncols)
      ≠ ((Tensor2.mk 2 2 fun _ _ => 3).nrows,
         (Tensor2.mk 2 2 fun _ _ => 3).ncols)
    ∧ head_stats ⟨1, 1, fun _ _ => 5⟩ ⟨2, 2, fun _ _ => 3⟩ =
        some [⟨0, 0, 5, 3⟩] := by
  refine ⟨by decide, ?_⟩
  rfl

/-- C4 (amended): no shape comparison is performed beyond the rank-2
asserts.  Whenever the SNR grid is at least as large as the impact grid in
both dimensions — identical or not — the statistics are computed without
error, using the impact grid's shape; only when the SNR grid is strictly
smaller in some dimension that is actually indexed does the run fail, with
an out-of-bounds index raised during the statistics loop. -/
theorem head_stats_shape_mismatch_behaviour (impact snr : Tensor2) :
    (impact.nrows ≤ snr.nrows → impact.ncols ≤ snr.ncols →
      head_stats impact snr =
        some ((rowMajor impact.nrows impact.ncols).map
          (fun p => ⟨p.1, p.2, impact.entry p.1 p.2, snr.entry p.1 p.2⟩)))
    ∧ (0 < impact.nrows → 0 < impact.ncols →
        snr.nrows < impact.nrows ∨ snr.ncols < impact.ncols →
        head_stats impact snr = none) := by
  constructor
  · exact fun hr hc => head_stats_eval impact snr hr hc
  · intro h1 h2 h3
    rcases h3 with h | h
    · apply traverseOption_eq_none _ _ (snr.nrows, 0)
        (mem_rowMajor.mpr ⟨h, h2⟩)
      have hn : index2 snr snr.nrows 0 = none := by simp [index2]
      cases him : index2 impact snr.nrows 0 <;> simp [him, hn]
    · apply traverseOption_eq_none _ _ (0, snr.ncols)
        (mem_rowMajor.mpr ⟨h1, h⟩)
      have hn : index2 snr 0 snr.ncols = none := by simp [index2]
      cases him : index2 impact 0 snr.ncols <;> simp [him, hn]

/-- Witness for the amended C4 theorem at concrete grids: a 1×1 impact grid
with a 2×3 SNR grid succeeds, a 2×2 impact grid with a 1×1 SNR grid
fails. -/
theorem head_stats_shape_mismatch_behaviour_witness :
    head_stats ⟨1, 1, fun _ _ => 7⟩ ⟨2, 3, fun _ _ => 9⟩ =
      some ((rowMajor 1 1).map (fun p => ⟨p.1, p.2, 7, 9⟩))
    ∧ head_stats ⟨2, 2, fun _ _ => 7⟩ ⟨1, 1, fun _ _ => 9⟩ = none :=
  ⟨(head_stats_shape_mismatch_behaviour ⟨1, 1, fun _ _ => 7⟩
      ⟨2, 3, fun _ _ => 9⟩).1 (by decide) (by decide),
   (head_stats_shape_mismatch_behaviour ⟨2, 2, fun _ _ => 7⟩
      ⟨1, 1, fun _ _ => 9⟩).2 (by decide) (by decide) (Or.inl (by decide))⟩

/-- C5: for every pair of equal-shaped rank-2 impact/SNR grids of shape
(L, H), the head-statistics table is produced without error and contains
exactly L·H records whose (layer, head) projection is exactly the row-major
enumeration (hence one record per distinct pair, with no duplicates). -/
theorem head_stats_table_complete (impact snr : Tensor2)
    (hr : impact.nrows = snr.nrows) (hc : impact.ncols = snr.ncols) :
    ∃ hs, head_stats impact snr = some hs ∧
      hs.length = impact.nrows * impact.ncols ∧
      hs.map (fun s => (s.layer, s.head)) = rowMajor impact.nrows impact.ncols
      ∧ (hs.map (fun s => (s.layer, s.head))).Nodup := by
  have hmap : ((rowMajor impact.nrows impact.ncols).map
      (fun p => (⟨p.1, p.2, impact.entry p.1 p.2, snr.entry p.1 p.2⟩ :
        HeadStat))).map (fun s => (s.layer, s.head)) =
      rowMajor impact.nrows impact.ncols := by
    rw [List.map_map]
    have hfun : ((fun s : HeadStat => (s.layer, s.head)) ∘
        fun p : Nat × Nat =>
          (⟨p.1, p.2, impact.entry p.1 p.2, snr.entry p.1 p.2⟩ : HeadStat)) =
        fun p => p := by
      funext p
      rfl
    rw [hfun, List.map_id']
  refine ⟨_, head_stats_eval impact snr hr.le hc.le, ?_, hmap, ?_⟩
  · rw [List.length_map, length_rowMajor]
  · rw [hmap]
    exact nodup_rowMajor _ _

/-- Witness for C5 at a concrete 2×3 grid pair. -/
theorem head_stats_table_complete_witness :
    ∃ hs, head_stats ⟨2, 3, fun i j => (i + j : ℚ)⟩
        ⟨2, 3, fun i j => (i * j : ℚ)⟩ = some hs ∧
      hs.length = 2 * 3 ∧
      hs.map (fun s => (s.layer, s.head)) = rowMajor 2 3 ∧
      (hs.map (fun s => (s.layer, s.head))).Nodup :=
  head_stats_table_complete ⟨2, 3, fun i j => (i + j : ℚ)⟩
    ⟨2, 3, fun i j => (i * j : ℚ)⟩ rfl rfl

/-! ### Lemmas about association-list lookup and Python indexing -/

theorem mem_of_dictGet {acc : List (Nat × ℚ)} {p : Nat} {v : ℚ}
    (h : dictGet acc p = some v) : (p, v) ∈ acc := by
  induction acc with
  | nil => simp [dictGet] at h
  | cons a as ih =>
    obtain ⟨k, w⟩ := a
    by_cases hk : k = p
    · subst hk
      simp [dictGet] at h
      simp [h]
    · simp [dictGet, hk] at h
      exact List.mem_cons_of_mem _ (ih h)

theorem dictGet_of_mem {acc : List (Nat × ℚ)} {p : Nat} {v : ℚ}
    (hnd : (acc.map Prod.fst).Nodup) (h : (p, v) ∈ acc) :
    dictGet acc p = some v := by
  induction acc with
  | nil => cases h
  | cons a as ih =>
    obtain ⟨k, w⟩ := a
    have hnd' : (∀ x : ℚ, (k, x) ∉ as) ∧ (as.map Prod.fst).Nodup := by
      simpa using hnd
    by_cases hk : k = p
    · subst hk
      rcases List.mem_cons.mp h with h1 | h1
      · cases h1
        simp [dictGet]
      · exact absurd h1 (hnd'.1 v)
    · rcases List.mem_cons.mp h with h1 | h1
      · cases h1
        exact absurd rfl hk
      · simp only [dictGet, if_neg hk]
        exact ih hnd'.2 h1

theorem dictGet_isSome_of_mem_keys {acc : List (Nat × ℚ)} {p : Nat}
    (h : p ∈ acc.map Prod.fst) : ∃ v, dictGet acc p = some v := by
  induction acc with
  | nil => simp at h
  | cons a as ih =>
    obtain ⟨k, w⟩ := a
    by_cases hk : k = p
    · exact ⟨w, by simp [dictGet, hk]⟩
    · have h2 : p = k ∨ ∃ x : ℚ, (p, x) ∈ as := by simpa using h
      rcases h2 with h1 | ⟨x, hx⟩
      · exact absurd h1.symm hk
      · obtain ⟨v, hv⟩ := ih (List.mem_map.mpr ⟨(p, x), hx, rfl⟩)
        exact ⟨v, by simp [dictGet, hk, hv]⟩

/-- For a 1-indexed position inside the sequence, Python's `sequence[i-1]`
is an ordinary non-negative lookup. -/
theorem pyIndex_pos (seq : List Char) (i : Nat) (h1 : 1 ≤ i) :
    pyIndex seq ((i : Int) - 1) = seq.get? (i - 1) := by
  unfold pyIndex
  rw [if_pos (by omega)]
  congr 1
  omega

/-- Evaluation of the reporter's row loop on a key list whose lookups all
succeed and whose positions are all in range: rows are exactly the
above-threshold positions, kept in key order. -/
theorem rowsFor_spec (seq : List Char) (acc : List (Nat × ℚ)) (pct : ℚ) :
    ∀ ks : List Nat,
      (∀ i ∈ ks, ∃ v, dictGet acc i = some v) →
      (∀ i ∈ ks, 1 ≤ i ∧ i ≤ seq.length) →
      ∃ rows, rowsFor seq acc pct ks = some rows ∧
        (∀ c p v, (c, p, v) ∈ rows ↔
          (p ∈ ks ∧ dictGet acc p = some v ∧ pct < v ∧
            seq.get? (p - 1) = some c)) ∧
        (rows.map (fun r => r.2.1)).Sublist ks := by
  intro ks
  induction ks with
  | nil =>
    intro _ _
    exact ⟨[], rfl, by simp, by simp⟩
  | cons i is ih =>
    intro hlk hval
    obtain ⟨v, hv⟩ := hlk i (by simp)
    obtain ⟨h1, h2⟩ := hval i (by simp)
    obtain ⟨rows', hrows', hiff', hsub'⟩ :=
      ih (fun j hj => hlk j (by simp [hj])) (fun j hj => hval j (by simp [hj]))
    have hc : seq.get? (i - 1) = some (seq.get ⟨i - 1, by omega⟩) :=
      List.get?_eq_get (by omega)
    have hpy : pyIndex seq ((i : Int) - 1) = some (seq.get ⟨i - 1, by omega⟩) := by
      rw [pyIndex_pos seq i h1, hc]
    by_cases hlt : pct < v
    · refine ⟨(seq.get ⟨i - 1, by omega⟩, i, v) :: rows', ?_, ?_, ?_⟩
      · simp [rowsFor, hv, hlt, hpy, hrows']
      · intro c' p v'
        constructor
        · intro hmem
          rcases List.mem_cons.mp hmem with he | hm
          · rw [Prod.mk.injEq, Prod.mk.injEq] at he
            obtain ⟨rfl, rfl, rfl⟩ := he
            exact ⟨by simp, hv, hlt, hc⟩
          · have h' := (hiff' c' p v').mp hm
            exact ⟨by simp [h'.1], h'.2.1, h'.2.2.1, h'.2.2.2⟩
        · rintro ⟨hp, hl, hpv, hg⟩
          rcases List.mem_cons.mp hp with hp1 | hp'
          · rw [hp1] at hl hg ⊢
            have hv' : v = v' := Option.some.inj (hv.symm.trans hl)
            have hcc : seq.get ⟨i - 1, by omega⟩ = c' :=
              Option.some.inj (hc.symm.trans hg)
            rw [← hv', ← hcc]
            exact List.mem_cons_self _ _
          · exact List.mem_cons_of_mem _
              ((hiff' c' p v').mpr ⟨hp', hl, hpv, hg⟩)
      · simpa using hsub'.cons₂ i
    · refine ⟨rows', ?_, ?_, ?_⟩
      · simp [rowsFor, hv, hlt, hrows']
      · intro c' p v'
        rw [hiff' c' p v']
        constructor
        · rintro ⟨hp, hl, hpv, hg⟩
          exact ⟨by simp [hp], hl, hpv, hg⟩
        · rintro ⟨hp, hl, hpv, hg⟩
          rcases List.mem_cons.mp hp with hp1 | hp'
          · rw [hp1] at hl
            rw [hv] at hl
            cases hl
            exact absurd hpv hlt
          · exact ⟨hp', hl, hpv, hg⟩
      · exact hsub'.cons i

/-- C10: the selection stage is independent of the collaborator-supplied
`p_values` tensor — two runs whose inputs differ only in that tensor select
the same sensitive-head list, because selection reads only the internally
recomputed t-test p-values and the SNR values. -/
theorem run_selection_independent_of_p_values
    (ttest : List ℚ → ℚ → ℚ) (impacts snrs pv1 pv2 : Tensor2) :
    run_selection ttest impacts snrs pv1 =
      run_selection ttest impacts snrs pv2 := rfl

/-- The percentile of a non-empty value collection always exists. -/
theorem np_percentile_linear_isSome (vals : List ℚ) (q : ℚ) (h : vals ≠ []) :
    (np_percentile_linear vals q).isSome := by
  simp [np_percentile_linear, h]

/-- Sanity check of the percentile embedding against the specification's
hand-computed reference: for 20 evenly spaced values 1..20, the
95th-percentile threshold is 19.05 = 381/20. -/
theorem np_percentile_linear_evenly_spaced :
    np_percentile_linear
      [1, 2, 3, 4, 5, 6, 7, 8, 9, 10, 11, 12, 13, 14, 15, 16, 17, 18, 19, 20]
      95 = some (381 / 20) := by
  norm_num +decide [np_percentile_linear, List.insertionSort,
    List.orderedInsert, Int.toNat]

/-! ### Claim theorems: reporter, artifacts, residue lookup -/

/-- C2: for every non-empty accumulated-attention mapping (with distinct,
in-range positions), the reporter computes the 95th percentile of all
mapping values by linear interpolation between order statistics and emits
exactly one record (residue letter, position, value) for every position
whose value strictly exceeds that percentile — no others — in ascending
position order. -/
theorem percentile_report_spec (seq : List Char) (acc : List (Nat × ℚ))
    (hne : acc ≠ []) (hnd : (acc.map Prod.fst).Nodup)
    (hval : ∀ p ∈ acc.map Prod.fst, 1 ≤ p ∧ p ≤ seq.length) :
    ∃ pct rows,
      np_percentile_linear (acc.map Prod.snd) 95 = some pct ∧
      percentileReport seq acc = some rows ∧
      (∀ c p v, (c, p, v) ∈ rows ↔
        ((p, v) ∈ acc ∧ pct < v ∧ seq.get? (p - 1) = some c)) ∧
      rows.Pairwise (fun r r' => r.2.1 < r'.2.1) := by
  have hvals : acc.map Prod.snd ≠ [] := by
    intro h0
    exact hne (List.map_eq_nil_iff.mp h0)
  obtain ⟨pct, hpct⟩ := Option.isSome_iff_exists.mp
    (np_percentile_linear_isSome (acc.map Prod.snd) 95 hvals)
  set ks := List.insertionSort (· ≤ ·) (acc.map Prod.fst) with hksdef
  have hperm : ks.Perm (acc.map Prod.fst) := List.perm_insertionSort _ _
  have hlk : ∀ i ∈ ks, ∃ v, dictGet acc i = some v := fun i hi =>
    dictGet_isSome_of_mem_keys (hperm.mem_iff.mp hi)
  have hvalks : ∀ i ∈ ks, 1 ≤ i ∧ i ≤ seq.length := fun i hi =>
    hval i (hperm.mem_iff.mp hi)
  obtain ⟨rows, hrows, hiff, hsub⟩ := rowsFor_spec seq acc pct ks hlk hvalks
  refine ⟨pct, rows, hpct, ?_, ?_, ?_⟩
  · simp only [percentileReport, hpct]
    exact hrows
  · intro c p v
    rw [hiff c p v]
    constructor
    · rintro ⟨hpk, hl, hv, hg⟩
      exact ⟨mem_of_dictGet hl, hv, hg⟩
    · rintro ⟨hmem, hv, hg⟩
      exact ⟨hperm.mem_iff.mpr (List.mem_map.mpr ⟨(p, v), hmem, rfl⟩),
        dictGet_of_mem hnd hmem, hv, hg⟩
  · have hsorted : ks.Sorted (· ≤ ·) := List.sorted_insertionSort _ _
    have hndks : ks.Nodup := hperm.nodup_iff.mpr hnd
    have hlt : ks.Sorted (· < ·) := hsorted.lt_of_le hndks
    exact List.pairwise_map.mp (List.Pairwise.sublist hsub hlt)

/-- Witness for C2 at the concrete mapping {1 ↦ 5, 2 ↦ 10} over sequence
`AB`: the percentile exists and the report rows satisfy the
characterisation. -/
theorem percentile_report_spec_witness :
    ∃ pct rows,
      np_percentile_linear (([((1 : Nat), (5 : ℚ)), (2, 10)]).map Prod.snd) 95 =
        some pct ∧
      percentileReport ("AB").data [((1 : Nat), (5 : ℚ)), (2, 10)] = some rows ∧
      (∀ c p v, (c, p, v) ∈ rows ↔
        ((p, v) ∈ ([((1 : Nat), (5 : ℚ)), (2, 10)] : List (Nat × ℚ)) ∧
          pct < v ∧ ("AB").data.get? (p - 1) = some c)) ∧
      rows.Pairwise (fun r r' => r.2.1 < r'.2.1) :=
  percentile_report_spec ("AB").data [((1 : Nat), (5 : ℚ)), (2, 10)]
    (by decide) (by decide) (by decide)

/-- C3 counterexample: with an empty accumulated-attention mapping the
report is not produced at all — the percentile computation fails on the
empty value collection (as `np.percentile` raises `IndexError` on an empty
array), so the run aborts before the CSV file is opened, instead of writing
a header-only artifact. -/
theorem percentile_report_empty_counterexample :
    percentileReport a2a_sequence [] = none := rfl

/-- C3 (amended): an empty accumulated-attention mapping is fatal rather
than a header-only artifact: the percentile of the empty value collection
is an error, and the reporter fails instead of emitting an empty row
list. -/
theorem percentile_report_empty_fails (seq : List Char) :
    np_percentile_linear (([] : List (Nat × ℚ)).map Prod.snd) 95 = none ∧
      percentileReport seq [] = none := ⟨rfl, rfl⟩

/-- C7: with an empty sensitive-head set the artifact stage does not fail:
the head-info record is still produced (describing an empty selection:
empty pair list and empty score dictionaries), while the stacked attention
tensor and the mean attention map are both skipped. -/
theorem persist_empty_selection (impact snr : Tensor2)
    (attn : Nat → Nat → Mat) :
    persist_results impact snr attn [] = ⟨⟨[], [], []⟩, none, none⟩ := rfl

/-- C8: whenever the sensitive-head set is non-empty, the head-info record
and the stacked attention tensor hold the same number of entries in the
same order: the k-th slice of the stack is the attention map of the k-th
persisted (layer, head) pair. -/
theorem persist_round_trip (impact snr : Tensor2) (attn : Nat → Nat → Mat)
    (sh : List (Nat × Nat)) (hne : sh ≠ []) :
    ∃ ms,
      (persist_results impact snr attn sh).sensitive_attention_maps = some ms ∧
      ms.length =
        (persist_results impact snr attn sh).head_info.sensitive_heads.length ∧
      ∀ (k : Nat) (hk : k < ms.length)
        (hk2 : k <
          (persist_results impact snr attn sh).head_info.sensitive_heads.length),
        ms.get ⟨k, hk⟩ =
          attn (((persist_results impact snr attn
                sh).head_info.sensitive_heads.get ⟨k, hk2⟩).1)
            (((persist_results impact snr attn
                sh).head_info.sensitive_heads.get ⟨k, hk2⟩).2) := by
  have hE : sh.isEmpty = false := by
    cases sh with
    | nil => exact absurd rfl hne
    | cons a as => rfl
  refine ⟨sh.map (fun p => attn p.1 p.2), ?_, ?_, ?_⟩
  · simp [persist_results, hE]
  · simp [persist_results]
  · intro k hk hk2
    simp [persist_results, List.get_eq_getElem, List.getElem_map]

/-- Witness for C8 at a concrete single-head selection. -/
theorem persist_round_trip_witness :
    ∃ ms,
      (persist_results ⟨1, 1, fun _ _ => 2⟩ ⟨1, 1, fun _ _ => 3⟩
        (fun l h => [[((l : ℚ) + h)]]) [(0, 0)]).sensitive_attention_maps =
        some ms ∧
      ms.length = (persist_results ⟨1, 1, fun _ _ => 2⟩ ⟨1, 1, fun _ _ => 3⟩
        (fun l h => [[((l : ℚ) + h)]]) [(0, 0)]).head_info.sensitive_heads.length ∧
      ∀ (k : Nat) (hk : k < ms.length)
        (hk2 : k < (persist_results ⟨1, 1, fun _ _ => 2⟩ ⟨1, 1, fun _ _ => 3⟩
          (fun l h => [[((l : ℚ) + h)]]) [(0, 0)]).head_info.sensitive_heads.length),
        ms.get ⟨k, hk⟩ =
          (fun l h => [[((l : ℚ) + h)]])
            (((persist_results ⟨1, 1, fun _ _ => 2⟩ ⟨1, 1, fun _ _ => 3⟩
              (fun l h => [[((l : ℚ) + h)]]) [(0, 0)]).head_info.sensitive_heads.get
                ⟨k, hk2⟩).1)
            (((persist_results ⟨1, 1, fun _ _ => 2⟩ ⟨1, 1, fun _ _ => 3⟩
              (fun l h => [[((l : ℚ) + h)]]) [(0, 0)]).head_info.sensitive_heads.get
                ⟨k, hk2⟩).2) :=
  persist_round_trip ⟨1, 1, fun _ _ => 2⟩ ⟨1, 1, fun _ _ => 3⟩
    (fun l h => [[((l : ℚ) + h)]]) [(0, 0)] (by decide)

set_option maxRecDepth 4000 in
/-- C9 counterexample: the requested site 0 lies outside the valid range
`1 ≤ position ≤ length(sequence)`, yet the residue-name lookup does not
fail on the script's A2A sequence: Python's negative indexing turns
`sequence[0 - 1]` into the *last* residue `Q`, which translates to `Gln`. -/
theorem residue_lookup_counterexample :
    ¬ (1 ≤ (0 : Int)) ∧ allosteric_res_3l a2a_sequence [0] = some ["Gln"] := by
  refine ⟨by decide, ?_⟩
  rfl

/-- C9 (amended): the residue-name lookup fails out-of-bounds only for
sites past the sequence's end (`position > length`) or at or below
`-length`; a site at 0, or a negative site with `-length < position ≤ 0`,
is *not* an error at the indexing step — Python's negative indexing wraps
around and the residue is silently read from the end of the sequence. -/
theorem residue_lookup_amended (seq : List Char) (site : Int) :
    (((seq.length : Int) < site ∨ site + (seq.length : Int) ≤ 0) →
      residue_3l seq site = none)
    ∧ (0 < site + (seq.length : Int) → site ≤ 0 →
      pyIndex seq (site - 1) =
        seq.get? (site - 1 + (seq.length : Int)).toNat) := by
  constructor
  · intro h
    have hnone : pyIndex seq (site - 1) = none := by
      rcases h with h | h
      · unfold pyIndex
        rw [if_pos (by omega)]
        exact List.get?_eq_none.mpr (by omega)
      · unfold pyIndex
        rw [if_neg (by omega), if_neg (by omega)]
    simp [residue_3l, hnone]
  · intro h1 h2
    unfold pyIndex
    rw [if_neg (by omega), if_pos (by omega)]

/-- Witness for the amended C9 theorem on the two-residue sequence `AQ`:
site 3 (beyond the end) fails, while site 0 wraps to index 1 without
failing. -/
theorem residue_lookup_amended_witness :
    residue_3l ("AQ").data 3 = none ∧
      pyIndex ("AQ").data ((0 : Int) - 1) =
        ("AQ").data.get? ((0 : Int) - 1 + ((("AQ").data.length : Nat) : Int)).toNat :=
  ⟨(residue_lookup_amended ("AQ").data 3).1 (Or.inl (by decide)),
   (residue_lookup_amended ("AQ").data 0).2 (by decide) (by decide)⟩

end A2A
